import Mathlib

/-!
# Verification of the Steno-Solver repository

Shallow embedding of `src/main.rs` (pattern compiler `parse_steno_string`,
constraint evaluator `check_steno_constraints`, enumeration engine
`enumerate_positions` / `solve` / `main`) together with a model of the
chess-rules collaborator, which the design document declares out of scope
and which the program consumes through the `chess` crate.
-/

namespace StenoSolver

/-- Modelled from the spec: the chess-rules collaborator's colour of a side.
The collaborator (legal move generation, make-move, status queries) is an
external crate, explicitly out of scope in the design document (§1, §6);
it is modelled here from the spec's contract. -/
inductive Color
  | white
  | black
deriving DecidableEq, Repr

/-- Modelled from the spec: the opposing colour. -/
def Color.flip : Color → Color
  | .white => .black
  | .black => .white

/-- Modelled from the spec: the six chess piece kinds (mirrors `chess::Piece`). -/
inductive Piece
  | pawn
  | knight
  | bishop
  | rook
  | queen
  | king
deriving DecidableEq, Repr

/-- Modelled from the spec: a move as in `chess::ChessMove`: source square,
destination square, optional promotion piece.  Squares are indices `0..63`
with file `s % 8` and rank `s / 8` (so `e1 = 4`, `g1 = 6`, `e8 = 60`),
matching `chess::Square::to_index`. -/
structure ChessMove where
  source : Nat
  dest : Nat
  promotion : Option Piece
deriving DecidableEq, Repr

/-- Numeric code of a square's content, one base-16 digit: 0 empty,
1-6 white pawn..king, 9-14 black pawn..king. -/
def pieceCode : Option (Color × Piece) → Nat
  | none => 0
  | some (.white, .pawn) => 1
  | some (.white, .knight) => 2
  | some (.white, .bishop) => 3
  | some (.white, .rook) => 4
  | some (.white, .queen) => 5
  | some (.white, .king) => 6
  | some (.black, .pawn) => 9
  | some (.black, .knight) => 10
  | some (.black, .bishop) => 11
  | some (.black, .rook) => 12
  | some (.black, .queen) => 13
  | some (.black, .king) => 14

/-- Decode one base-16 digit back into a square's content. -/
def codePiece (d : Nat) : Option (Color × Piece) :=
  if d == 1 then some (.white, .pawn)
  else if d == 2 then some (.white, .knight)
  else if d == 3 then some (.white, .bishop)
  else if d == 4 then some (.white, .rook)
  else if d == 5 then some (.white, .queen)
  else if d == 6 then some (.white, .king)
  else if d == 9 then some (.black, .pawn)
  else if d == 10 then some (.black, .knight)
  else if d == 11 then some (.black, .bishop)
  else if d == 12 then some (.black, .rook)
  else if d == 13 then some (.black, .queen)
  else if d == 14 then some (.black, .king)
  else none

/-- Modelled from the spec: a position snapshot (piece placement, side to
move, castling rights, en-passant target), as in `chess::Board`.  The
placement is packed as 64 base-16 digits of one natural number (square `s`
at bits `4*s .. 4*s+3`). -/
structure Board where
  pieces : Nat
  sideToMove : Color
  castleWK : Bool
  castleWQ : Bool
  castleBK : Bool
  castleBQ : Bool
  epSquare : Option Nat
deriving DecidableEq, Repr

/-- File (column) of a square index, `0..7`. -/
def fileOf (s : Nat) : Nat := s % 8

/-- Rank (row) of a square index, `0..7`. -/
def rankOf (s : Nat) : Nat := s / 8

/-- Move from square `s` by a file/rank delta; `none` when off the board. -/
def offset (s : Nat) (df dr : Int) : Option Nat :=
  let f : Int := (fileOf s : Int) + df
  let r : Int := (rankOf s : Int) + dr
  if 0 ≤ f ∧ f < 8 ∧ 0 ≤ r ∧ r < 8 then some (r * 8 + f).toNat else none

/-- The piece (with colour) on a square, as in `chess::Board::piece_on`
paired with `color_on`. -/
def pieceAt (b : Board) (s : Nat) : Option (Color × Piece) :=
  codePiece ((b.pieces >>> (4 * s)) &&& 15)

/-- Replace the content of square `s` in a packed placement. -/
def setSq (n : Nat) (s : Nat) (v : Option (Color × Piece)) : Nat :=
  n - (((n >>> (4 * s)) &&& 15) <<< (4 * s)) + (pieceCode v <<< (4 * s))

/-- Pack a list of squares (a1 first) into a placement number. -/
def encodeBoard : List (Option (Color × Piece)) → Nat
  | [] => 0
  | cp :: rest => pieceCode cp + 16 * encodeBoard rest

/-- Whether a square is empty. -/
def isEmptySq (b : Board) (s : Nat) : Bool :=
  pieceAt b s == none

/-- Whether side `c` may land on square `s` (empty or enemy-occupied). -/
def landable (b : Board) (c : Color) (s : Nat) : Bool :=
  match pieceAt b s with
  | none => true
  | some (c2, _) => c2 != c

/-- Sliding-move helper: squares reachable in direction `(df, dr)` from
`cur`, stopping at the first occupied square (included when enemy). -/
def slideGo (b : Board) (c : Color) (df dr : Int) : Nat → Nat → List Nat
  | 0, _ => []
  | n + 1, cur =>
    match offset cur df dr with
    | none => []
    | some nxt =>
      match pieceAt b nxt with
      | none => nxt :: slideGo b c df dr n nxt
      | some (c2, _) => if c2 != c then [nxt] else []

/-- Squares a slider of colour `c` on `s` reaches in direction `(df, dr)`. -/
def slide (b : Board) (c : Color) (s : Nat) (df dr : Int) : List Nat :=
  slideGo b c df dr 7 s

/-- First piece encountered walking from `cur` in direction `(df, dr)`. -/
def firstPieceGo (b : Board) (df dr : Int) : Nat → Nat → Option (Color × Piece)
  | 0, _ => none
  | n + 1, cur =>
    match offset cur df dr with
    | none => none
    | some nxt =>
      match pieceAt b nxt with
      | none => firstPieceGo b df dr n nxt
      | some cp => some cp

/-- First piece encountered walking from `s` in direction `(df, dr)`. -/
def firstPiece (b : Board) (s : Nat) (df dr : Int) : Option (Color × Piece) :=
  firstPieceGo b df dr 7 s

/-- The eight knight-move offsets. -/
def knightOffsets : List (Int × Int) :=
  [(1, 2), (2, 1), (2, -1), (1, -2), (-1, -2), (-2, -1), (-2, 1), (-1, 2)]

/-- The eight king-move offsets. -/
def kingOffsets : List (Int × Int) :=
  [(1, 0), (1, 1), (0, 1), (-1, 1), (-1, 0), (-1, -1), (0, -1), (1, -1)]

/-- The four diagonal directions. -/
def diagDirs : List (Int × Int) := [(1, 1), (1, -1), (-1, 1), (-1, -1)]

/-- The four orthogonal directions. -/
def orthoDirs : List (Int × Int) := [(1, 0), (-1, 0), (0, 1), (0, -1)]

/-- Modelled from the spec: whether any piece of colour `byC` attacks
square `sq` (the collaborator's check-detection primitive). -/
def isAttacked (b : Board) (byC : Color) (sq : Nat) : Bool :=
  let pawnDr : Int := if byC == Color.white then -1 else 1
  (knightOffsets.any fun o =>
    match offset sq o.1 o.2 with
    | some d => pieceAt b d == some (byC, Piece.knight)
    | none => false) ||
  (kingOffsets.any fun o =>
    match offset sq o.1 o.2 with
    | some d => pieceAt b d == some (byC, Piece.king)
    | none => false) ||
  (([(-1 : Int), 1]).any fun df =>
    match offset sq df pawnDr with
    | some d => pieceAt b d == some (byC, Piece.pawn)
    | none => false) ||
  (diagDirs.any fun o =>
    match firstPiece b sq o.1 o.2 with
    | some (c2, p) => c2 == byC && (p == Piece.bishop || p == Piece.queen)
    | none => false) ||
  (orthoDirs.any fun o =>
    match firstPiece b sq o.1 o.2 with
    | some (c2, p) => c2 == byC && (p == Piece.rook || p == Piece.queen)
    | none => false)

/-- Linear scan for a king: first square at or after `s` (within `n` more
squares) holding colour `c`'s king. -/
def kingSquareGo (b : Board) (c : Color) : Nat → Nat → Option Nat
  | 0, _ => none
  | n + 1, s =>
    if pieceAt b s == some (c, Piece.king) then some s
    else kingSquareGo b c n (s + 1)

/-- The square of colour `c`'s king, when present. -/
def kingSquare (b : Board) (c : Color) : Option Nat :=
  kingSquareGo b c 64 0

/-- Modelled from the spec: whether colour `c`'s king is in check
(`chess::Board::checkers().count() > 0` for the side to move). -/
def inCheckOf (b : Board) (c : Color) : Bool :=
  match kingSquare b c with
  | some k => isAttacked b c.flip k
  | none => false

/-- Promotion piece kinds, as offered by legal move generation. -/
def promoPieces : List Piece := [Piece.queen, Piece.rook, Piece.bishop, Piece.knight]

/-- Expand a pawn destination into promotion variants on the last rank. -/
def withPromo (c : Color) (d : Nat) : List (Nat × Option Piece) :=
  if rankOf d == (if c == Color.white then 7 else 0) then
    promoPieces.map (fun p => (d, some p))
  else [(d, none)]

/-- Modelled from the spec: pseudo-legal pawn destinations (single and
double pushes, diagonal captures including the en-passant square,
promotion expansion). -/
def pawnTargets (b : Board) (c : Color) (s : Nat) : List (Nat × Option Piece) :=
  let dr : Int := if c == Color.white then 1 else -1
  let homeRank : Nat := if c == Color.white then 1 else 6
  let fwd :=
    match offset s 0 dr with
    | some d1 =>
      if isEmptySq b d1 then
        withPromo c d1 ++
          (if rankOf s == homeRank then
            match offset s 0 (2 * dr) with
            | some d2 => if isEmptySq b d2 then [(d2, none)] else []
            | none => []
          else [])
      else []
    | none => []
  let caps := ([(-1 : Int), 1]).flatMap (fun df =>
    match offset s df dr with
    | some d =>
      if (match pieceAt b d with
          | some (c2, _) => c2 != c
          | none => b.epSquare == some d) then withPromo c d
      else []
    | none => [])
  fwd ++ caps

/-- Modelled from the spec: castling king destinations (rights intact,
intervening squares empty, rook in place, king path not attacked). -/
def castleTargets (b : Board) (c : Color) (s : Nat) : List (Nat × Option Piece) :=
  if c == Color.white && s == 4 then
    (if b.castleWK && isEmptySq b 5 && isEmptySq b 6 &&
        pieceAt b 7 == some (Color.white, Piece.rook) &&
        !isAttacked b Color.black 4 && !isAttacked b Color.black 5 &&
        !isAttacked b Color.black 6
     then [(6, none)] else []) ++
    (if b.castleWQ && isEmptySq b 3 && isEmptySq b 2 && isEmptySq b 1 &&
        pieceAt b 0 == some (Color.white, Piece.rook) &&
        !isAttacked b Color.black 4 && !isAttacked b Color.black 3 &&
        !isAttacked b Color.black 2
     then [(2, none)] else [])
  else if c == Color.black && s == 60 then
    (if b.castleBK && isEmptySq b 61 && isEmptySq b 62 &&
        pieceAt b 63 == some (Color.black, Piece.rook) &&
        !isAttacked b Color.white 60 && !isAttacked b Color.white 61 &&
        !isAttacked b Color.white 62
     then [(62, none)] else []) ++
    (if b.castleBQ && isEmptySq b 59 && isEmptySq b 58 && isEmptySq b 57 &&
        pieceAt b 56 == some (Color.black, Piece.rook) &&
        !isAttacked b Color.white 60 && !isAttacked b Color.white 59 &&
        !isAttacked b Color.white 58
     then [(58, none)] else [])
  else []

/-- Modelled from the spec: pseudo-legal destination/promotion pairs for the
piece of the side to move standing on square `s` (empty otherwise). -/
def targetsFrom (b : Board) (s : Nat) : List (Nat × Option Piece) :=
  match pieceAt b s with
  | none => []
  | some (c, p) =>
    if c != b.sideToMove then []
    else
      match p with
      | .pawn => pawnTargets b c s
      | .knight => knightOffsets.filterMap (fun o =>
          (offset s o.1 o.2).bind (fun d => if landable b c d then some (d, none) else none))
      | .bishop => (diagDirs.flatMap (fun o => slide b c s o.1 o.2)).map (fun d => (d, none))
      | .rook => (orthoDirs.flatMap (fun o => slide b c s o.1 o.2)).map (fun d => (d, none))
      | .queen =>
          ((diagDirs ++ orthoDirs).flatMap (fun o => slide b c s o.1 o.2)).map (fun d => (d, none))
      | .king =>
          kingOffsets.filterMap (fun o =>
            (offset s o.1 o.2).bind (fun d => if landable b c d then some (d, none) else none)) ++
          castleTargets b c s

/-- The pseudo-legal moves of the piece on square `s`. -/
def movesFrom (b : Board) (s : Nat) : List ChessMove :=
  (targetsFrom b s).map (fun t => { source := s, dest := t.1, promotion := t.2 })

/-- All pseudo-legal moves of the side to move. -/
def pseudoLegal (b : Board) : List ChessMove :=
  (List.range 64).flatMap (fun s => movesFrom b s)

/-- Modelled from the spec: make-move (`chess::Board::make_move`), a pure
function producing the resulting position: moves/promotes the piece,
removes an en-passant-captured pawn, relocates the rook on castling,
updates castling rights, the en-passant target and the side to move. -/
def makeMove (b : Board) (m : ChessMove) : Board :=
  let c := b.sideToMove
  let moving := pieceAt b m.source
  let movedKind : Option Piece := moving.map Prod.snd
  let placed : Option (Color × Piece) :=
    match m.promotion with
    | some pr => some (c, pr)
    | none => moving
  let ps1 := setSq (setSq b.pieces m.source none) m.dest placed
  let ps2 :=
    if movedKind == some Piece.pawn && b.epSquare == some m.dest &&
        fileOf m.source != fileOf m.dest && pieceAt b m.dest == none then
      setSq ps1 (rankOf m.source * 8 + fileOf m.dest) none
    else ps1
  let ps3 :=
    if movedKind == some Piece.king && m.source == 4 && m.dest == 6 then
      setSq (setSq ps2 7 none) 5 (some (c, Piece.rook))
    else if movedKind == some Piece.king && m.source == 4 && m.dest == 2 then
      setSq (setSq ps2 0 none) 3 (some (c, Piece.rook))
    else if movedKind == some Piece.king && m.source == 60 && m.dest == 62 then
      setSq (setSq ps2 63 none) 61 (some (c, Piece.rook))
    else if movedKind == some Piece.king && m.source == 60 && m.dest == 58 then
      setSq (setSq ps2 56 none) 59 (some (c, Piece.rook))
    else ps2
  { pieces := ps3
    sideToMove := c.flip
    castleWK := b.castleWK && !(m.source == 4 || m.source == 7 || m.dest == 7)
    castleWQ := b.castleWQ && !(m.source == 4 || m.source == 0 || m.dest == 0)
    castleBK := b.castleBK && !(m.source == 60 || m.source == 63 || m.dest == 63)
    castleBQ := b.castleBQ && !(m.source == 60 || m.source == 56 || m.dest == 56)
    epSquare :=
      if movedKind == some Piece.pawn && fileOf m.source == fileOf m.dest &&
          (rankOf m.source + 2 == rankOf m.dest || rankOf m.dest + 2 == rankOf m.source) then
        some ((m.source + m.dest) / 2)
      else none }

/-- Modelled from the spec: `legal_moves(position) -> set of Move`
(`chess::MoveGen::new_legal`): the pseudo-legal moves after which the
mover's own king is not attacked; `dedup` realises the contract's set
semantics. -/
def legalMoves (b : Board) : List ChessMove :=
  ((pseudoLegal b).filter (fun m => !inCheckOf (makeMove b m) b.sideToMove)).dedup

/-- Modelled from the spec: the collaborator's game-status values. -/
inductive BoardStatus
  | ongoing
  | checkmate
  | stalemate
deriving DecidableEq, Repr

/-- Modelled from the spec: `status(position)` (`chess::Board::status`):
checkmate/stalemate exactly when no legal move exists, split by check. -/
def status (b : Board) : BoardStatus :=
  if (legalMoves b).isEmpty then
    if inCheckOf b b.sideToMove then .checkmate else .stalemate
  else .ongoing

/-- Mirrors `chess::Board::piece_on`: the kind of the piece on a square. -/
def piece_on (b : Board) (s : Nat) : Option Piece :=
  (pieceAt b s).map Prod.snd

/-- One back rank of colour `c` in the standard opening position. -/
def backRank (c : Color) : List (Option (Color × Piece)) :=
  [some (c, Piece.rook), some (c, Piece.knight), some (c, Piece.bishop), some (c, Piece.queen),
   some (c, Piece.king), some (c, Piece.bishop), some (c, Piece.knight), some (c, Piece.rook)]

/-- One rank of pawns of colour `c`. -/
def pawnRank (c : Color) : List (Option (Color × Piece)) :=
  List.replicate 8 (some (c, Piece.pawn))

/-- One empty rank. -/
def emptyRank : List (Option (Color × Piece)) := List.replicate 8 none

/-- The standard opening position (`chess::Board::default`). -/
def startBoard : Board :=
  { pieces := encodeBoard (backRank .white ++ pawnRank .white ++ emptyRank ++ emptyRank ++
      emptyRank ++ emptyRank ++ pawnRank .black ++ backRank .black)
    sideToMove := .white
    castleWK := true
    castleWQ := true
    castleBK := true
    castleBQ := true
    epSquare := none }

/-- The fixed allowed alphabet of `parse_steno_string` (`valid_chars` in
`src/main.rs`). -/
def valid_chars : List Char :=
  ['~', '1', '2', '3', '4', '5', '6', '7', '8', 'a', 'b', 'c', 'd', 'e', 'f', 'g', 'h', 'x',
   '+', '#', 'L', 'N', 'R', 'Q', 'K', 'P', '%', '=', 'o', '0', 'r', 'n', 'l', 'q']

/-- The character loop of `parse_steno_string`: keep the characters of the
steno string, failing on the first one outside `valid_chars` with the
source's error message. -/
def parseChars : List Char → Except String (List Char)
  | [] => .ok []
  | ch :: rest =>
    if valid_chars.contains ch then
      match parseChars rest with
      | .ok parsed => .ok (ch :: parsed)
      | .error e => .error e
    else .error ("Invalid character in steno string: ".push ch)

/-- Function `parse_steno_string` from `src/main.rs`. -/
def parse_steno_string (steno : String) : Except String (List Char) :=
  parseChars steno.data

/-- The `match constraint` dispatch inside `check_steno_constraints`
(`src/main.rs` lines 37-106), one branch per token character, in source
order.  The source's `last_piece_moved.unwrap() == k` is modelled as
`last_piece_moved == some k`, which agrees whenever the option is present;
the reachability theorem for C5 shows the option is present at every
reachable evaluation. -/
def evalConstraint (constraint : Char) (board : Board) (last_move_unwrapped : ChessMove)
    (last_piece_moved : Option Piece) (piece_on_dest : Option Piece) : Bool :=
  let dest_square := last_move_unwrapped.dest
  let source_square := last_move_unwrapped.source
  if constraint == '~' then true
  else if '1' ≤ constraint && constraint ≤ '8' then
    rankOf dest_square == constraint.toNat - Char.toNat '1'
  else if 'a' ≤ constraint && constraint ≤ 'h' then
    fileOf dest_square == constraint.toNat - Char.toNat 'a'
  else if constraint == '+' then inCheckOf board board.sideToMove
  else if constraint == '#' then status board == BoardStatus.checkmate
  else if constraint == 'L' then last_piece_moved == some Piece.bishop
  else if constraint == 'N' then last_piece_moved == some Piece.knight
  else if constraint == 'R' then last_piece_moved == some Piece.rook
  else if constraint == 'Q' then last_piece_moved == some Piece.queen
  else if constraint == 'K' then last_piece_moved == some Piece.king
  else if constraint == 'P' then last_piece_moved == some Piece.pawn
  else if constraint == 'x' then
    if piece_on_dest.isSome then true
    else
      match last_piece_moved with
      | some last_piece =>
        if last_piece == Piece.pawn then
          (fileOf source_square != fileOf dest_square) && piece_on_dest == none
        else false
      | none => false
  else if constraint == '%' then
    match last_piece_moved with
    | some last_piece =>
      if last_piece == Piece.pawn then
        (fileOf source_square != fileOf dest_square) && piece_on_dest == none
      else false
    | none => false
  else if constraint == '=' then status board == BoardStatus.stalemate
  else if constraint == 'o' then
    last_piece_moved == some Piece.king &&
      ((source_square == 4 && dest_square == 6) || (source_square == 60 && dest_square == 62))
  else if constraint == '0' then
    last_piece_moved == some Piece.king &&
      ((source_square == 4 && dest_square == 2) || (source_square == 60 && dest_square == 58))
  else if constraint == 'r' then last_move_unwrapped.promotion == some Piece.rook
  else if constraint == 'n' then last_move_unwrapped.promotion == some Piece.knight
  else if constraint == 'l' then last_move_unwrapped.promotion == some Piece.bishop
  else if constraint == 'q' then last_move_unwrapped.promotion == some Piece.queen
  else false

/-- Function `check_steno_constraints` from `src/main.rs`: pass trivially when no
move has been played yet, otherwise evaluate the token at index
`depth - 1`.  The source's out-of-bounds panic on
`steno_constraints[depth - 1]` is modelled by the placeholder character
`'?'` (outside the alphabet, evaluating to `false`); the reachability
theorem for C5 shows the index is in bounds at every reachable call. -/
def check_steno_constraints (board : Board) (last_move : Option ChessMove)
    (last_piece_moved : Option Piece) (piece_on_dest : Option Piece)
    (depth : Nat) (steno_constraints : List Char) : Bool :=
  match last_move with
  | none => true
  | some last_move_unwrapped =>
    evalConstraint (steno_constraints.getD (depth - 1) '?') board last_move_unwrapped
      last_piece_moved piece_on_dest

/-- Observable events of a run, sequentialising the program's behaviour:
`call` is one invocation of `enumerate_positions` (which immediately
invokes `check_steno_constraints` with the recorded context), `expand` is
one legal-move fan-out, `emit` is the Lichess-URL line printed for one
matching path at the frontier, `countEmit` is the final
`Number of solutions found` line of `solve`, and `errorOut` is `main`'s
error print for a rejected pattern. -/
inductive Event
  | call (depth : Nat) (path : List ChessMove) (lastMove : Option ChessMove)
      (lastPieceMoved : Option Piece)
  | expand (path : List ChessMove) (moves : List ChessMove)
  | emit (path : List ChessMove)
  | countEmit (n : Nat)
  | errorOut (msg : String)
deriving DecidableEq, Repr

/-- Function `enumerate_positions` from `src/main.rs`, instrumented: it returns the
final accumulator contribution (the number of mutex increments) together
with the sequentialised event trace.  `ord` models rayon's arbitrary
sibling scheduling: it may reorder the legal-move list at each node
(identified by its path).  `fuel` makes the recursion structural; `solve`
passes the pattern length, which the termination theorem for C8 shows is
never exhausted. -/
def enumerate_positions_ord (ord : List ChessMove → List ChessMove → List ChessMove)
    (steno_constraints : List Char) :
    Nat → Board → Nat → List ChessMove → Option ChessMove → Option Piece → Option Piece →
      Nat × List Event
  | 0, board, depth, path, last_move, last_piece_moved, piece_on_dest =>
    if !check_steno_constraints board last_move last_piece_moved piece_on_dest depth
        steno_constraints then
      (0, [.call depth path last_move last_piece_moved])
    else if depth == steno_constraints.length then
      (1, [.call depth path last_move last_piece_moved, .emit path])
    else
      (0, [.call depth path last_move last_piece_moved])
  | f + 1, board, depth, path, last_move, last_piece_moved, piece_on_dest =>
    if !check_steno_constraints board last_move last_piece_moved piece_on_dest depth
        steno_constraints then
      (0, [.call depth path last_move last_piece_moved])
    else if depth == steno_constraints.length then
      (1, [.call depth path last_move last_piece_moved, .emit path])
    else
      let moves := ord path (legalMoves board)
      let results := moves.map (fun mov =>
        enumerate_positions_ord ord steno_constraints f (makeMove board mov) (depth + 1)
          (path ++ [mov]) (some mov) (piece_on board mov.source) (piece_on board mov.dest))
      ((results.map Prod.fst).sum,
        Event.call depth path last_move last_piece_moved ::
          Event.expand path moves :: (results.map Prod.snd).flatten)

/-- The scheduling that keeps the generator's move order. -/
def idOrd : List ChessMove → List ChessMove → List ChessMove := fun _ moves => moves

/-- Engine `enumerate_positions` with the generator's own move order. -/
def enumerate_positions (board : Board) (depth : Nat) (path : List ChessMove)
    (last_move : Option ChessMove) (last_piece_moved : Option Piece)
    (piece_on_dest : Option Piece) (steno_constraints : List Char) (fuel : Nat) :
    Nat × List Event :=
  enumerate_positions_ord idOrd steno_constraints fuel board depth path last_move
    last_piece_moved piece_on_dest

/-- Function `solve` from `src/main.rs`: run the engine from the standard opening
position at depth 0 with an accumulator starting at 0. -/
def solveRun (steno_constraints : List Char) : Nat × List Event :=
  enumerate_positions startBoard 0 [] none none none steno_constraints
    steno_constraints.length

/-- The count `solve` reports. -/
def solveCount (steno_constraints : List Char) : Nat := (solveRun steno_constraints).1

/-- The event trace of `solve`: the engine's trace followed by the final
count line. -/
def solveTrace (steno_constraints : List Char) : List Event :=
  (solveRun steno_constraints).2 ++ [Event.countEmit (solveRun steno_constraints).1]

/-- Function `main` from `src/main.rs` for a given pattern argument: parse, then
either run `solve` or print the parse error. -/
def mainTrace (steno : String) : List Event :=
  match parse_steno_string steno with
  | .ok steno_constraints => solveTrace steno_constraints
  | .error err => [Event.errorOut err]

/-- The paths of the matching sequences printed during a trace (one per
Lichess-URL line). -/
def emittedPaths (tr : List Event) : List (List ChessMove) :=
  tr.filterMap (fun e =>
    match e with
    | .emit p => some p
    | _ => none)

/-- Whether an event is a legal-move fan-out of the engine. -/
def isExpand : Event → Bool
  | .expand _ _ => true
  | _ => false

/-- Run of `solve` under an arbitrary sibling scheduling `ord`. -/
def solveRunOrd (ord : List ChessMove → List ChessMove → List ChessMove)
    (steno_constraints : List Char) : Nat × List Event :=
  enumerate_positions_ord ord steno_constraints steno_constraints.length startBoard 0 []
    none none none

/-- A scheduling that reverses every sibling list (used to instantiate the
determinism theorem at a concrete non-trivial ordering). -/
def revOrd : List ChessMove → List ChessMove → List ChessMove := fun _ moves => moves.reverse

/-! ## Theorems -/

/-- The `'x'` branch of the evaluator, as an if-and-only-if
characterisation (shared helper). -/
theorem eval_x_iff (board : Board) (m : ChessMove)
    (last_piece_moved piece_on_dest : Option Piece) :
    evalConstraint 'x' board m last_piece_moved piece_on_dest = true ↔
      (piece_on_dest.isSome = true ∨
        (last_piece_moved = some Piece.pawn ∧ fileOf m.source ≠ fileOf m.dest ∧
          piece_on_dest = none)) := by
  cases piece_on_dest with
  | some p => simp [evalConstraint]
  | none =>
    cases last_piece_moved with
    | none => simp [evalConstraint]
    | some lp => cases lp <;> simp [evalConstraint]

/-- The `'%'` branch of the evaluator, as an if-and-only-if
characterisation (shared helper). -/
theorem eval_percent_iff (board : Board) (m : ChessMove)
    (last_piece_moved piece_on_dest : Option Piece) :
    evalConstraint '%' board m last_piece_moved piece_on_dest = true ↔
      (last_piece_moved = some Piece.pawn ∧ fileOf m.source ≠ fileOf m.dest ∧
        piece_on_dest = none) := by
  cases last_piece_moved with
  | none => simp [evalConstraint]
  | some lp => cases lp <;> cases piece_on_dest <;> simp [evalConstraint]

/-- C2: the capture token `'x'` evaluates to true iff the destination
square was occupied before the move (`piece_on_dest` present), or the
moved piece is a pawn, the source file differs from the destination file,
and the destination square was empty (en passant); false otherwise. -/
theorem C2_capture_token (board : Board) (m : ChessMove)
    (last_piece_moved piece_on_dest : Option Piece) :
    evalConstraint 'x' board m last_piece_moved piece_on_dest = true ↔
      (piece_on_dest.isSome = true ∨
        (last_piece_moved = some Piece.pawn ∧ fileOf m.source ≠ fileOf m.dest ∧
          piece_on_dest = none)) :=
  eval_x_iff board m last_piece_moved piece_on_dest

/-- C7: the en-passant token `'%'` evaluates to true iff the moved piece
is a pawn, the source file differs from the destination file, and the
destination square was empty before the move; false in all other cases,
including ordinary captures (occupied destination). -/
theorem C7_en_passant_token (board : Board) (m : ChessMove)
    (last_piece_moved piece_on_dest : Option Piece) :
    evalConstraint '%' board m last_piece_moved piece_on_dest = true ↔
      (last_piece_moved = some Piece.pawn ∧ fileOf m.source ≠ fileOf m.dest ∧
        piece_on_dest = none) :=
  eval_percent_iff board m last_piece_moved piece_on_dest

/-- C10: at any ply context, satisfying the en-passant token `'%'` implies
satisfying the generic capture token `'x'`. -/
theorem C10_en_passant_implies_capture (board : Board) (m : ChessMove)
    (last_piece_moved piece_on_dest : Option Piece)
    (h : evalConstraint '%' board m last_piece_moved piece_on_dest = true) :
    evalConstraint 'x' board m last_piece_moved piece_on_dest = true := by
  rcases (eval_percent_iff board m last_piece_moved piece_on_dest).mp h with
    ⟨hp, hf, hd⟩
  exact (eval_x_iff board m last_piece_moved piece_on_dest).mpr (Or.inr ⟨hp, hf, hd⟩)

/-- Witness for C10: the en-passant ply e5xd6 (pawn, e5 = 36 to d6 = 43,
empty destination) satisfies `'%'`, hence `'x'`. -/
theorem C10_en_passant_implies_capture_witness :
    evalConstraint '%' startBoard ⟨36, 43, none⟩ (some Piece.pawn) none = true ∧
      evalConstraint 'x' startBoard ⟨36, 43, none⟩ (some Piece.pawn) none = true :=
  ⟨by decide,
    C10_en_passant_implies_capture startBoard ⟨36, 43, none⟩ (some Piece.pawn) none
      (by decide)⟩

/-- The character loop fails with the source's message on the first
character outside the alphabet. -/
theorem parseChars_error {l : List Char} {c : Char}
    (h : l.find? (fun ch => !valid_chars.contains ch) = some c) :
    parseChars l = .error ("Invalid character in steno string: ".push c) := by
  induction l with
  | nil => simp [List.find?] at h
  | cons ch rest ih =>
    cases hv : valid_chars.contains ch with
    | true =>
      rw [List.find?_cons] at h
      rw [hv] at h
      simp only [Bool.not_true] at h
      have hrest := ih h
      unfold parseChars
      rw [if_pos hv, hrest]
    | false =>
      rw [List.find?_cons] at h
      rw [hv] at h
      simp only [Bool.not_false, Option.some.injEq] at h
      subst h
      unfold parseChars
      rw [if_neg (by rw [hv]; exact Bool.false_ne_true)]

/-- C4: for an input containing a character outside the fixed alphabet,
compilation fails on the first such character with an error reporting that
character, and no search work is performed: `main`'s whole observable
behaviour is the single error line — the engine is never invoked and the
accumulator is never created or touched (the trace holds no `call`,
`expand`, `emit` or `countEmit` event). -/
theorem C4_invalid_char_rejected (s : String) (c : Char)
    (h : s.data.find? (fun ch => !valid_chars.contains ch) = some c) :
    parse_steno_string s = .error ("Invalid character in steno string: ".push c) ∧
      mainTrace s = [Event.errorOut ("Invalid character in steno string: ".push c)] := by
  have hp : parse_steno_string s = .error ("Invalid character in steno string: ".push c) :=
    parseChars_error h
  exact ⟨hp, by simp [mainTrace, hp]⟩

/-- Witness for C4: the input `"~!"` is rejected on `'!'` with the exact
error message, and produces no search events. -/
theorem C4_invalid_char_rejected_witness :
    parse_steno_string "~!" = .error ("Invalid character in steno string: ".push '!') ∧
      mainTrace "~!" = [Event.errorOut ("Invalid character in steno string: ".push '!')] :=
  C4_invalid_char_rejected "~!" '!' (by decide)

/-- C6: for the empty pattern the engine reports exactly one match (the
empty sequence at the starting position): the whole run is one evaluator
call, one emitted match and the final count line 1 — no legal-move
fan-out and no recursion occurs. -/
theorem C6_empty_pattern :
    solveCount [] = 1 ∧
      solveTrace [] = [Event.call 0 [] none none, Event.emit [], Event.countEmit 1] ∧
      (solveTrace []).all (fun e => !isExpand e) = true :=
  ⟨rfl, rfl, rfl⟩

/-- One result line is printed for each accumulator increment: the count
returned by the engine equals the number of emitted matching paths. -/
theorem emittedPaths_flatten (L : List (List Event)) :
    emittedPaths L.flatten = (L.map emittedPaths).flatten := by
  induction L with
  | nil => rfl
  | cons l ls ih =>
    simp only [List.flatten_cons, List.map_cons]
    unfold emittedPaths
    rw [List.filterMap_append]
    unfold emittedPaths at ih
    rw [ih]

/-- A `call` event contributes no emitted path. -/
theorem emittedPaths_call_cons (d : Nat) (p : List ChessMove) (lm : Option ChessMove)
    (lpm : Option Piece) (tr : List Event) :
    emittedPaths (Event.call d p lm lpm :: tr) = emittedPaths tr := rfl

/-- An `expand` event contributes no emitted path. -/
theorem emittedPaths_expand_cons (p : List ChessMove) (ms : List ChessMove)
    (tr : List Event) :
    emittedPaths (Event.expand p ms :: tr) = emittedPaths tr := rfl

/-- Scheduling-independence of the engine: under any sibling ordering the
count is unchanged and the multiset of emitted matching paths is a
permutation of the one obtained with the generator's order. -/
theorem enum_ord_perm (ord : List ChessMove → List ChessMove → List ChessMove)
    (hperm : ∀ p l, (ord p l).Perm l) (sc : List Char) :
    ∀ (fuel : Nat) (b : Board) (depth : Nat) (path : List ChessMove)
      (lm : Option ChessMove) (lpm pod : Option Piece),
      (enumerate_positions_ord ord sc fuel b depth path lm lpm pod).1 =
        (enumerate_positions_ord idOrd sc fuel b depth path lm lpm pod).1 ∧
      (emittedPaths (enumerate_positions_ord ord sc fuel b depth path lm lpm pod).2).Perm
        (emittedPaths (enumerate_positions_ord idOrd sc fuel b depth path lm lpm pod).2) := by
  intro fuel
  induction fuel with
  | zero =>
    intro b depth path lm lpm pod
    simp only [enumerate_positions_ord]
    exact ⟨trivial, List.Perm.refl _⟩
  | succ f ih =>
    intro b depth path lm lpm pod
    simp only [enumerate_positions_ord]
    cases hc : check_steno_constraints b lm lpm pod depth sc with
    | false =>
      simp only [Bool.not_false, if_true]
      exact ⟨trivial, List.Perm.refl _⟩
    | true =>
      by_cases hl : (depth == sc.length) = true
      · simp only [hl, Bool.not_true, Bool.false_eq_true, if_false, if_true]
        exact ⟨trivial, List.Perm.refl _⟩
      · have hl2 : (depth == sc.length) = false := Bool.eq_false_iff.mpr hl
        simp only [hl2, Bool.not_true, Bool.false_eq_true, if_false, idOrd]
        constructor
        · simp only [List.map_map]
          have hmc : List.map
              (Prod.fst ∘ fun mov => enumerate_positions_ord ord sc f
                (makeMove b mov) (depth + 1) (path ++ [mov]) (some mov)
                (piece_on b mov.source) (piece_on b mov.dest)) (ord path (legalMoves b)) =
              List.map
              (Prod.fst ∘ fun mov => enumerate_positions_ord idOrd sc f
                (makeMove b mov) (depth + 1) (path ++ [mov]) (some mov)
                (piece_on b mov.source) (piece_on b mov.dest)) (ord path (legalMoves b)) :=
            List.map_congr_left (fun mov _ =>
              (ih (makeMove b mov) (depth + 1) (path ++ [mov]) (some mov)
                (piece_on b mov.source) (piece_on b mov.dest)).1)
          rw [hmc]
          exact ((hperm path (legalMoves b)).map _).sum_eq
        · rw [emittedPaths_call_cons, emittedPaths_call_cons, emittedPaths_expand_cons,
            emittedPaths_expand_cons, emittedPaths_flatten, emittedPaths_flatten]
          simp only [List.map_map]
          refine List.Perm.trans ?_
            (List.Perm.flatMap_right
              (emittedPaths ∘ Prod.snd ∘ fun mov => enumerate_positions_ord idOrd sc f
                (makeMove b mov) (depth + 1) (path ++ [mov]) (some mov)
                (piece_on b mov.source) (piece_on b mov.dest))
              (hperm path (legalMoves b)))
          exact List.Perm.flatMap_left (ord path (legalMoves b)) (fun mov _ =>
            (ih (makeMove b mov) (depth + 1) (path ++ [mov]) (some mov)
              (piece_on b mov.source) (piece_on b mov.dest)).2)

/-- C9: the search outcome is independent of the order in which sibling
branches are explored and recorded: two runs of the same pattern under any
two (permutation-valid) schedulings produce the same final count, emitted
path multisets that are permutations of each other, and hence the same
set of matching move sequences. -/
theorem C9_deterministic (ord1 ord2 : List ChessMove → List ChessMove → List ChessMove)
    (h1 : ∀ p l, (ord1 p l).Perm l) (h2 : ∀ p l, (ord2 p l).Perm l) (sc : List Char) :
    (solveRunOrd ord1 sc).1 = (solveRunOrd ord2 sc).1 ∧
      (emittedPaths (solveRunOrd ord1 sc).2).Perm (emittedPaths (solveRunOrd ord2 sc).2) ∧
      ∀ p, p ∈ emittedPaths (solveRunOrd ord1 sc).2 ↔
        p ∈ emittedPaths (solveRunOrd ord2 sc).2 := by
  have e1 := enum_ord_perm ord1 h1 sc sc.length startBoard 0 [] none none none
  have e2 := enum_ord_perm ord2 h2 sc sc.length startBoard 0 [] none none none
  exact ⟨e1.1.trans e2.1.symm, e1.2.trans e2.2.symm,
    fun p => (e1.2.trans e2.2.symm).mem_iff⟩

/-- Witness for C9: with the one-wildcard pattern, the reversed-sibling
scheduling and the generator's scheduling agree on the count and explore
permutations of the same matching sequences. -/
theorem C9_deterministic_witness :
    (solveRunOrd revOrd ['~']).1 = (solveRunOrd idOrd ['~']).1 ∧
      (emittedPaths (solveRunOrd revOrd ['~']).2).Perm
        (emittedPaths (solveRunOrd idOrd ['~']).2) ∧
      ∀ p, p ∈ emittedPaths (solveRunOrd revOrd ['~']).2 ↔
        p ∈ emittedPaths (solveRunOrd idOrd ['~']).2 :=
  C9_deterministic revOrd idOrd (fun _ l => List.reverse_perm l)
    (fun _ l => List.Perm.refl l) ['~']

end StenoSolver
